import Mathlib

/-!
Shallow embedding of `frog/language_manager.py` (class `LanguageManager`).

Modelling conventions:
* The static catalog built in `LanguageManager.__init__` is an association
  list in Python dict insertion order; `gettext`'s `_` is the identity
  (untranslated strings).
* The tessdata directory is modelled as the list of file names returned by
  `os.listdir` (in listing order).
* GObject signal emissions are recorded in a list of `Signal` values;
  `GObjectWorker.call` dispatches are recorded as `Job` values.
* Python exceptions are `Except`: the error carries the state as it is at
  the moment the exception propagates.
* HTTP retrieval outcomes are an oracle saying whether each repository has
  the file; `urllib.request.urlretrieve` either succeeds or raises.
-/

namespace Frog

/-- The static code → display-name catalog assigned key by key in
`LanguageManager.__init__` (`self._languages[...] = _(...)`), in source
order. -/
def languages : List (String × String) := [
  ("afr", "Afrikaans"),
  ("amh", "Amharic"),
  ("ara", "Arabic"),
  ("asm", "Assamese"),
  ("aze", "Azerbaijani"),
  ("aze_cyrl", "Azerbaijani - Cyrilic"),
  ("bel", "Belarusian"),
  ("ben", "Bengali"),
  ("bod", "Tibetan"),
  ("bos", "Bosnian"),
  ("bre", "Breton"),
  ("bul", "Bulgarian"),
  ("cat", "Catalan; Valencian"),
  ("ceb", "Cebuano"),
  ("ces", "Czech"),
  ("chi_sim", "Chinese - Simplified"),
  ("chi_tra", "Chinese - Traditional"),
  ("chr", "Cherokee"),
  ("cos", "Corsican"),
  ("cym", "Welsh"),
  ("dan", "Danish"),
  ("deu", "German"),
  ("dzo", "Dzongkha"),
  ("ell", "Greek, Modern (1453-)"),
  ("eng", "English"),
  ("enm", "English, Middle (1100-1500)"),
  ("epo", "Esperanto"),
  ("equ", "Math / equation detection module"),
  ("est", "Estonian"),
  ("eus", "Basque"),
  ("fao", "Faroese"),
  ("fas", "Persian"),
  ("fil", "Filipino (old - Tagalog)"),
  ("fin", "Finnish"),
  ("fra", "French"),
  ("frk", "German - Fraktur"),
  ("frm", "French, Middle (ca.1400-1600)"),
  ("fry", "Western Frisian"),
  ("gla", "Scottish Gaelic"),
  ("gle", "Irish"),
  ("glg", "Galician"),
  ("grc", "Greek, Ancient (to 1453) (contrib)"),
  ("guj", "Gujarati"),
  ("hat", "Haitian; Haitian Creole"),
  ("heb", "Hebrew"),
  ("hin", "Hindi"),
  ("hrv", "Croatian"),
  ("hun", "Hungarian"),
  ("hye", "Armenian"),
  ("iku", "Inuktitut"),
  ("ind", "Indonesian"),
  ("isl", "Icelandic"),
  ("ita", "Italian"),
  ("ita_old", "Italian - Old"),
  ("jav", "Javanese"),
  ("jpn", "Japanese"),
  ("jpn_vert", "Japanese (vertical)"),
  ("kan", "Kannada"),
  ("kat", "Georgian"),
  ("kat_old", "Georgian - Old"),
  ("kaz", "Kazakh"),
  ("khm", "Central Khmer"),
  ("kir", "Kirghiz; Kyrgyz"),
  ("kmr", "Kurmanji (Kurdish - Latin Script)"),
  ("kor", "Korean"),
  ("kor_vert", "Korean (vertical)"),
  ("lao", "Lao"),
  ("lat", "Latin"),
  ("lav", "Latvian"),
  ("lit", "Lithuanian"),
  ("ltz", "Luxembourgish"),
  ("mal", "Malayalam"),
  ("mar", "Marathi"),
  ("mkd", "Macedonian"),
  ("mlt", "Maltese"),
  ("mon", "Mongolian"),
  ("mri", "Maori"),
  ("msa", "Malay"),
  ("mya", "Burmese"),
  ("nep", "Nepali"),
  ("nld", "Dutch; Flemish"),
  ("nor", "Norwegian"),
  ("oci", "Occitan (post 1500)"),
  ("ori", "Oriya"),
  ("osd", "Orientation and script detection module"),
  ("pan", "Panjabi; Punjabi"),
  ("pol", "Polish"),
  ("por", "Portuguese"),
  ("pus", "Pushto; Pashto"),
  ("que", "Quechua"),
  ("ron", "Romanian; Moldavian; Moldovan"),
  ("rus", "Russian"),
  ("san", "Sanskrit"),
  ("sin", "Sinhala; Sinhalese"),
  ("slk", "Slovak"),
  ("slv", "Slovenian"),
  ("snd", "Sindhi"),
  ("spa", "Spanish; Castilian"),
  ("spa_old", "Spanish; Castilian - Old"),
  ("sqi", "Albanian"),
  ("srp", "Serbian"),
  ("srp_latn", "Serbian - Latin"),
  ("sun", "Sundanese"),
  ("swa", "Swahili"),
  ("swe", "Swedish"),
  ("syr", "Syriac"),
  ("tam", "Tamil"),
  ("tat", "Tatar"),
  ("tel", "Telugu"),
  ("tgk", "Tajik"),
  ("tha", "Thai"),
  ("tir", "Tigrinya"),
  ("ton", "Tonga"),
  ("tur", "Turkish"),
  ("uig", "Uighur; Uyghur"),
  ("ukr", "Ukrainian"),
  ("urd", "Urdu"),
  ("uzb", "Uzbek"),
  ("uzb_cyrl", "Uzbek - Cyrilic"),
  ("vie", "Vietnamese"),
  ("yid", "Yiddish"),
  ("yor", "Yoruba")]

/-- `LanguageManager.get_language`: `self._languages.get(code)` — `None`
when the code is not in the catalog. -/
def get_language (code : String) : Option String :=
  languages.lookup code

/-- `LanguageManager.get_language_code`: scan the catalog items in
insertion order and return the first code whose display name equals
`language`; Python falls off the end and returns `None` otherwise. -/
def get_language_code (language : String) : Option String :=
  (languages.find? (fun p => p.2 == language)).map Prod.fst

/-- The sort key `lambda x: self.get_language(x)` used by
`get_available_codes` and `get_downloaded_codes`. Both call sites apply it
only to catalog codes, where `get_language` is a title string; the `""`
default is never reached there. -/
def titleKey (c : String) : String :=
  (get_language c).getD ""

/-- Lexicographic `≤` on character lists by code point: exactly how
Python compares two `str` values. -/
def charListLE : List Char → List Char → Bool
  | [], _ => true
  | _ :: _, [] => false
  | a :: as, b :: bs =>
    if a.val.toNat < b.val.toNat then true
    else if b.val.toNat < a.val.toNat then false
    else charListLE as bs

/-- Python's `s1 <= s2` on strings. -/
def strLE (a b : String) : Bool :=
  charListLE a.data b.data

/-- Comparison of codes by their display name (Python compares the title
strings by code point). -/
def titleLE (a b : String) : Prop :=
  strLE (titleKey a) (titleKey b) = true

instance : DecidableRel titleLE := fun _ _ =>
  inferInstanceAs (Decidable (_ = true))

/-- Python's `sorted(..., key=lambda x: self.get_language(x))`: a stable
sort by display name. `List.insertionSort` is stable, and all the keys
that occur at the call sites are pairwise distinct titles, so it computes
the same list as CPython's stable mergesort. -/
def sortByTitle (l : List String) : List String :=
  l.insertionSort titleLE

/-- `LanguageManager.get_available_codes`:
`sorted(self._languages.keys(), key=lambda x: self.get_language(x))`. -/
def get_available_codes : List String :=
  sortByTitle (languages.map Prod.fst)

/-- `os.path.splitext(name)[0]` for a plain file name (no path
separators): drop the extension starting at the last `.`, unless every
character before that last `.` is itself a `.` (e.g. `.bashrc`), in which
case the whole name is the stem. -/
def splitext_stem (name : String) : String :=
  let cs := name.data
  let lastDot := (List.range cs.length).foldl
    (fun acc i => if cs.getD i ' ' = '.' then some i else acc) none
  match lastDot with
  | none => name
  | some i => if (cs.take i).all (fun c => c = '.') then name else ⟨cs.take i⟩

/-- `frog.types.download_state.DownloadState` (its definition is outside
this module; none of its fields matter here, only that `download` stores a
freshly constructed value). -/
structure DownloadState where
deriving DecidableEq

/-- The mutable fields of `LanguageManager` that the claims touch. -/
structure LMState where
  loading_languages : List (String × DownloadState)
  downloaded_codes : List String
  need_update_cache : Bool
deriving DecidableEq

/-- The state `LanguageManager.__init__` leaves behind. -/
def initState : LMState :=
  { loading_languages := [], downloaded_codes := [], need_update_cache := true }

/-- One GObject signal emission. `downloading` carries a rational because
`download` emits the literal `0.1` while `update_progress` emits an
integer; both are exact rationals. `downloaded` carries an `Option`
because `download_done` can be handed `None`. -/
inductive Signal where
  | added (code : String)
  | downloading (code : String) (progress : ℚ)
  | downloaded (code : Option String)
  | removed (code : String)
deriving DecidableEq

/-- A `GObjectWorker.call(self.download_begin, (code,), self.download_done)`
dispatch. -/
structure Job where
  code : String
deriving DecidableEq

/-- Python dict assignment `d[k] = v`: overwrite in place when the key
exists, else append. -/
def dictInsert (d : List (String × DownloadState)) (k : String) (v : DownloadState) :
    List (String × DownloadState) :=
  if d.any (fun p => p.1 == k) then
    d.map (fun p => if p.1 == k then (k, v) else p)
  else d ++ [(k, v)]

/-- Python `d.pop(k)`: `none` models the `KeyError` when `k` is absent. -/
def pyPop (d : List (String × DownloadState)) (k : String) :
    Option (List (String × DownloadState)) :=
  if d.any (fun p => p.1 == k) then some (d.filter (fun p => p.1 != k)) else none

/-- `LanguageManager.get_downloaded_codes(force)`: re-list the directory
into the cache when `_need_update_cache or force`, then keep only the
stems that are catalog codes (unrecognized ones are logged and skipped)
and sort them by display name. Returns the new state and the returned
list. -/
def get_downloaded_codes (fs : List String) (st : LMState) (force : Bool) :
    LMState × List String :=
  let st :=
    if st.need_update_cache || force then
      { st with downloaded_codes := fs.map splitext_stem, need_update_cache := false }
    else st
  let recognized := st.downloaded_codes.filter (fun c => (get_language c).isSome)
  (st, sortByTitle recognized)

/-- `LanguageManager.download(code)`: emit `added`, overwrite
`loading_languages[code]` with a fresh `DownloadState`, emit an initial
`downloading` with `0.1`, and dispatch `download_begin` to the worker. -/
def download (st : LMState) (code : String) : LMState × List Signal × List Job :=
  ({ st with loading_languages := dictInsert st.loading_languages code {} },
   [Signal.added code, Signal.downloading code (1 / 10 : ℚ)],
   [{ code := code }])

/-- Which repository an HTTP attempt addresses: `tessdata_best_url` (the
best-quality repository) or `tessdata_url` (the fallback). -/
inductive Repo where
  | best
  | fallback
deriving DecidableEq

/-- One `request.urlretrieve` attempt: the repository whose URL is used
and the file name `<code>.traineddata`, fetched into the data
directory. -/
structure Attempt where
  repo : Repo
  file : String
deriving DecidableEq

/-- Outcome oracle for `request.urlretrieve`: whether fetching a given
code's file from each repository succeeds (`false` = the call raises). -/
structure HttpOracle where
  bestOk : String → Bool
  fallbackOk : String → Bool

/-- Truncation toward zero, the semantics of Python's `int(...)` applied
to a quotient. -/
def truncToInt (q : ℚ) : Int :=
  Int.tdiv q.num q.den

/-- The `update_progress` closure in `download_begin`:
`progress = int(block_num * block_size * 100 / total_size)` followed by
`self.emit('downloading', code, progress)`. The quotient is modelled
exactly over `ℚ`; `total_size = 0` makes the division raise
`ZeroDivisionError`, modelled as the error case. -/
def update_progress (code : String) (block_num block_size total_size : Int) :
    Except Unit Signal :=
  if total_size = 0 then Except.error ()
  else
    Except.ok (Signal.downloading code
      ((truncToInt ((block_num * block_size * 100 : ℚ) / (total_size : ℚ)) : Int) : ℚ))

/-- `LanguageManager.download_begin(code)`: one `urlretrieve` of
`<code>.traineddata` from `tessdata_best_url`; only if that raises, one
more from `tessdata_url`; return `code` on either success and `None`
(falling off the end) when both raise. The returned list records the
attempts in order. -/
def download_begin (o : HttpOracle) (code : String) : Option String × List Attempt :=
  let tessfile := code ++ ".traineddata"
  if o.bestOk code then
    (some code, [{ repo := Repo.best, file := tessfile }])
  else if o.fallbackOk code then
    (some code, [{ repo := Repo.best, file := tessfile },
                 { repo := Repo.fallback, file := tessfile }])
  else
    (none, [{ repo := Repo.best, file := tessfile },
            { repo := Repo.fallback, file := tessfile }])

/-- `LanguageManager.download_done(code)`: set `_need_update_cache`, pop
`loading_languages[code]` only when `code` is truthy (`dict.pop` raises
`KeyError` when the key is absent — the error side, carrying the state at
that point), then emit `downloaded` with `code` as received. -/
def download_done (st : LMState) (code : Option String) :
    Except LMState (LMState × List Signal) :=
  let st1 := { st with need_update_cache := true }
  match code with
  | none => Except.ok (st1, [Signal.downloaded none])
  | some c =>
    if c = "" then Except.ok (st1, [Signal.downloaded (some c)])
    else
      match pyPop st1.loading_languages c with
      | none => Except.error st1
      | some d =>
        Except.ok ({ st1 with loading_languages := d }, [Signal.downloaded (some c)])

/-- `LanguageManager.remove_language(code)`:
`os.remove(os.path.join(tessdata_dir, f"{code}.traineddata"))`, then set
`_need_update_cache` and emit `removed`. When the file is absent,
`os.remove` raises `FileNotFoundError` before either of those lines runs:
the error side carries the untouched directory and state. -/
def remove_language (fs : List String) (st : LMState) (code : String) :
    Except (List String × LMState) (List String × LMState × List Signal) :=
  let target := code ++ ".traineddata"
  if target ∈ fs then
    Except.ok (fs.erase target, { st with need_update_cache := true },
      [Signal.removed code])
  else
    Except.error (fs, st)

/-- The manager state after a `download_done` run, whether it completed
or propagated a `KeyError`. -/
def doneState : Except LMState (LMState × List Signal) → LMState
  | Except.ok r => r.1
  | Except.error st => st

/-- The `_need_update_cache` flag after `remove_language`, on either the
completed path or the `FileNotFoundError` path. -/
def remFlag :
    Except (List String × LMState) (List String × LMState × List Signal) → Bool
  | Except.ok r => r.2.1.need_update_cache
  | Except.error e => e.2.need_update_cache

/-- Whether a code round-trips through `get_language` and back through
`get_language_code`. -/
def roundtripOK (c : String) : Bool :=
  match get_language c with
  | some t => get_language_code t == some c
  | none => false

/-- A state in which a download of `"eng"` is already recorded in
`loading_languages`. -/
def engLoading : LMState :=
  { loading_languages := [("eng", {})], downloaded_codes := [],
    need_update_cache := false }

theorem charListLE_total : ∀ as bs, charListLE as bs = true ∨ charListLE bs as = true
  | [], _ => Or.inl rfl
  | _ :: _, [] => Or.inr rfl
  | a :: as, b :: bs => by
    rcases Nat.lt_trichotomy a.val.toNat b.val.toNat with h | h | h
    · left; simp [charListLE, h]
    · rcases charListLE_total as bs with ih | ih
      · left; simp [charListLE, h, ih]
      · right; simp [charListLE, h.symm, ih]
    · right; simp [charListLE, h]

theorem charListLE_cons {a b : Char} {as bs : List Char} :
    charListLE (a :: as) (b :: bs) = true ↔
      a.val.toNat < b.val.toNat ∨
        (a.val.toNat = b.val.toNat ∧ charListLE as bs = true) := by
  simp only [charListLE]
  split_ifs with h1 h2
  · simp [h1]
  · simp only [Bool.false_eq_true, false_iff]
    push_neg
    constructor
    · omega
    · intro h; omega
  · have hab : a.val.toNat = b.val.toNat := by omega
    simp [hab]

theorem charListLE_trans : ∀ as bs cs, charListLE as bs = true →
    charListLE bs cs = true → charListLE as cs = true
  | [], _, _, _, _ => rfl
  | _ :: _, [], _, h1, _ => by simp [charListLE] at h1
  | _ :: _, _ :: _, [], _, h2 => by simp [charListLE] at h2
  | a :: as, b :: bs, c :: cs, h1, h2 => by
    rcases charListLE_cons.mp h1 with hab | ⟨hab, h1'⟩ <;>
      rcases charListLE_cons.mp h2 with hbc | ⟨hbc, h2'⟩
    · exact charListLE_cons.mpr (Or.inl (by omega))
    · exact charListLE_cons.mpr (Or.inl (by omega))
    · exact charListLE_cons.mpr (Or.inl (by omega))
    · exact charListLE_cons.mpr
        (Or.inr ⟨by omega, charListLE_trans as bs cs h1' h2'⟩)

instance : IsTotal String titleLE :=
  ⟨fun a b => charListLE_total (titleKey a).data (titleKey b).data⟩

instance : IsTrans String titleLE :=
  ⟨fun _ _ _ hab hbc => charListLE_trans _ _ _ hab hbc⟩

set_option maxRecDepth 20000 in
theorem languages_codes_nodup : (languages.map Prod.fst).Nodup := by decide

set_option maxRecDepth 20000 in
set_option maxHeartbeats 1000000 in
theorem all_roundtripOK : (languages.map Prod.fst).all roundtripOK = true := by
  decide

theorem pair_sublist_of_mem {α : Type} {l : List α} {a b : α} (ha : a ∈ l)
    (hb : b ∈ l) (hne : a ≠ b) :
    List.Sublist [a, b] l ∨ List.Sublist [b, a] l := by
  induction l with
  | nil => cases ha
  | cons x xs ih =>
    rcases List.mem_cons.mp ha with rfl | ha'
    · rcases List.mem_cons.mp hb with rfl | hb'
      · exact absurd rfl hne
      · exact Or.inl (List.cons_sublist_cons.mpr (List.singleton_sublist.mpr hb'))
    · rcases List.mem_cons.mp hb with rfl | hb'
      · exact Or.inr (List.cons_sublist_cons.mpr (List.singleton_sublist.mpr ha'))
      · rcases ih ha' hb' with h | h
        · exact Or.inl (List.Sublist.cons x h)
        · exact Or.inr (List.Sublist.cons x h)

theorem truncToInt_intCast (n : Int) : truncToInt (n : ℚ) = n := by
  unfold truncToInt
  rw [Rat.num_intCast, Rat.den_intCast]
  exact Int.tdiv_one n

theorem dictInsert_map_fst_of_mem {d : List (String × DownloadState)}
    {k : String} (v : DownloadState) (h : k ∈ d.map Prod.fst) :
    (dictInsert d k v).map Prod.fst = d.map Prod.fst := by
  have hany : d.any (fun p => p.1 == k) = true := by
    rcases List.mem_map.mp h with ⟨p, hp, rfl⟩
    exact List.any_eq_true.mpr ⟨p, hp, beq_self_eq_true _⟩
  unfold dictInsert
  rw [if_pos hany, List.map_map]
  apply List.map_congr_left
  intro p _
  by_cases hpk : (p.1 == k) = true
  · simp only [Function.comp_apply, if_pos hpk]
    exact (eq_of_beq hpk).symm
  · simp only [Function.comp_apply, hpk, if_neg]
    simp [hpk]

/-- C1: for every language code, `download_begin` makes exactly one
attempt to retrieve `<code>.traineddata` from the best-quality repository
URL; only if that attempt raises does it make exactly one further attempt
from the fallback repository URL; there are no additional retries, every
attempt targets `<code>.traineddata`, and it returns the code exactly when
either attempt succeeds (the result is never some other code). -/
theorem c1_download_begin_two_tier (o : HttpOracle) (code : String) :
    ((download_begin o code).2.countP (fun a => a.repo == Repo.best) = 1) ∧
    ((download_begin o code).2.countP (fun a => a.repo == Repo.fallback) =
      if o.bestOk code then 0 else 1) ∧
    ((download_begin o code).2.countP (fun a => a.file == code ++ ".traineddata") =
      (download_begin o code).2.length) ∧
    ((download_begin o code).1 = some code ↔
      (o.bestOk code || o.fallbackOk code) = true) ∧
    ((download_begin o code).1 = none ∨ (download_begin o code).1 = some code) := by
  unfold download_begin
  rcases hb : o.bestOk code <;> rcases hf : o.fallbackOk code <;>
    simp [hb, hf, List.countP_cons]

/-- C9: when both attempts fail `download_begin` returns `None`;
`download_done None` completes without raising, still emits `downloaded`
with `None`, and leaves `loading_languages` untouched (the pop happens
only for a truthy code), so a failed code's entry stays recorded. -/
theorem c9_failed_download_keeps_entry (o : HttpOracle) (code : String)
    (st : LMState) :
    ((download_begin o code).1 = none ↔
      o.bestOk code = false ∧ o.fallbackOk code = false) ∧
    download_done st none =
      Except.ok ({ st with need_update_cache := true }, [Signal.downloaded none]) ∧
    ({ st with need_update_cache := true } : LMState).loading_languages =
      st.loading_languages := by
  refine ⟨?_, rfl, rfl⟩
  unfold download_begin
  rcases hb : o.bestOk code <;> rcases hf : o.fallbackOk code <;> simp [hb, hf]

/-- C10: when `<code>.traineddata` is not in the data directory,
`remove_language` raises out of `os.remove` with the directory and the
manager state (in particular `_need_update_cache`) unchanged and no
`removed` signal emitted. -/
theorem c10_remove_missing_raises (fs : List String) (st : LMState)
    (code : String) (h : code ++ ".traineddata" ∉ fs) :
    remove_language fs st code = Except.error (fs, st) := by
  simp [remove_language, h]

theorem c10_witness :
    remove_language [] initState "eng" = Except.error ([], initState) :=
  c10_remove_missing_raises [] initState "eng" (by decide)

/-- C5: when `<code>.traineddata` is in the (duplicate-free) data
directory, `remove_language` completes, deletes exactly that file —
afterwards the file is gone and every other file's presence is
unchanged — sets the cache flag, and emits exactly the `removed` signal
with that code. -/
theorem c5_remove_language_frame (fs : List String) (st : LMState)
    (code : String) (h : code ++ ".traineddata" ∈ fs) (hnd : fs.Nodup) :
    remove_language fs st code =
      Except.ok (fs.erase (code ++ ".traineddata"),
        { st with need_update_cache := true }, [Signal.removed code]) ∧
    code ++ ".traineddata" ∉ fs.erase (code ++ ".traineddata") ∧
    (∀ f, f ≠ code ++ ".traineddata" →
      (f ∈ fs.erase (code ++ ".traineddata") ↔ f ∈ fs)) := by
  refine ⟨by simp [remove_language, h], hnd.not_mem_erase,
    fun f hf => List.mem_erase_of_ne hf⟩

theorem c5_witness :
    remove_language ["eng.traineddata", "rus.traineddata"] initState "eng" =
      Except.ok (["rus.traineddata"],
        { initState with need_update_cache := true }, [Signal.removed "eng"]) :=
  (c5_remove_language_frame ["eng.traineddata", "rus.traineddata"] initState
    "eng" (by decide) (by decide)).1

/-- C4: `download_done` (on every path, including the `KeyError` one) and
a completed `remove_language` set `_need_update_cache`; a call to
`get_downloaded_codes` with `force = false` re-lists the directory exactly
when the flag is set, clears the flag, re-lists after a `download_done`,
and between invalidations a repeated `force = false` call changes nothing
and returns the same cached listing whatever the directory now holds. -/
theorem c4_cache_invalidation (fs fs2 fs3 : List String) (st st2 : LMState)
    (c : Option String) (code : String)
    (h : code ++ ".traineddata" ∈ fs) :
    (doneState (download_done st2 c)).need_update_cache = true ∧
    remFlag (remove_language fs st2 code) = true ∧
    ((get_downloaded_codes fs2 st false).1.downloaded_codes =
      if st.need_update_cache then fs2.map splitext_stem
      else st.downloaded_codes) ∧
    (get_downloaded_codes fs2 st false).1.need_update_cache = false ∧
    ((get_downloaded_codes fs2 (doneState (download_done st2 c))
        false).1.downloaded_codes = fs2.map splitext_stem) ∧
    ((get_downloaded_codes fs3 (get_downloaded_codes fs2 st false).1 false).1 =
      (get_downloaded_codes fs2 st false).1) ∧
    ((get_downloaded_codes fs3 (get_downloaded_codes fs2 st false).1 false).2 =
      (get_downloaded_codes fs2 st false).2) := by
  have hdone : ∀ (s : LMState), (doneState (download_done s c)).need_update_cache
      = true := by
    intro s
    cases c with
    | none => rfl
    | some t =>
      by_cases ht : t = ""
      · simp [download_done, ht, doneState]
      · cases hp : pyPop s.loading_languages t <;>
          simp [download_done, ht, hp, doneState]
  have hfst : ∀ (fsx : List String) (stx : LMState),
      (get_downloaded_codes fsx stx false).1 =
        (if stx.need_update_cache then
          { stx with
            downloaded_codes := fsx.map splitext_stem
            need_update_cache := false }
         else stx) := by
    intro fsx stx
    cases hx : stx.need_update_cache <;> simp [get_downloaded_codes, hx]
  have hsnd : ∀ (fsx : List String) (stx : LMState) (b : Bool),
      (get_downloaded_codes fsx stx b).2 =
        sortByTitle ((get_downloaded_codes fsx stx b).1.downloaded_codes.filter
          (fun s => (get_language s).isSome)) := fun _ _ _ => rfl
  have hflagfalse : (get_downloaded_codes fs2 st false).1.need_update_cache
      = false := by
    rw [hfst]
    cases hx : st.need_update_cache <;> simp [hx]
  have hrepeat : (get_downloaded_codes fs3 (get_downloaded_codes fs2 st false).1
      false).1 = (get_downloaded_codes fs2 st false).1 := by
    rw [hfst fs3 _, if_neg]
    simp [hflagfalse]
  refine ⟨hdone st2, by simp [remove_language, remFlag, h], ?_, hflagfalse,
    ?_, hrepeat, ?_⟩
  · rw [hfst]
    cases hx : st.need_update_cache <;> simp [hx]
  · rw [hfst, if_pos (hdone st2)]
  · rw [hsnd fs3, hsnd fs2, hrepeat]

theorem c4_witness :
    (doneState (download_done engLoading none)).need_update_cache = true ∧
    remFlag (remove_language ["eng.traineddata"] engLoading "eng") = true ∧
    ((get_downloaded_codes ["ita.traineddata"] initState false).1.downloaded_codes
      = if initState.need_update_cache then ["ita.traineddata"].map splitext_stem
        else initState.downloaded_codes) := by
  have h := c4_cache_invalidation ["eng.traineddata"] ["ita.traineddata"] []
    initState engLoading none "eng" (by decide)
  exact ⟨h.1, h.2.1, h.2.2.1⟩

/-- C6: `download(code)` while `code` is already recorded in
`loading_languages` is not prevented: the entry is unconditionally
overwritten in place with a fresh `DownloadState` (no key is added or
removed), `added` and an initial `downloading` are emitted, and another
background download of the same code is dispatched. -/
theorem c6_download_overwrites (st : LMState) (code : String)
    (h : code ∈ st.loading_languages.map Prod.fst) :
    (download st code).1.loading_languages =
      st.loading_languages.map
        (fun p => if p.1 == code then (code, ({} : DownloadState)) else p) ∧
    (download st code).1.loading_languages.map Prod.fst =
      st.loading_languages.map Prod.fst ∧
    (download st code).2.1 =
      [Signal.added code, Signal.downloading code (1 / 10 : ℚ)] ∧
    (download st code).2.2 = [{ code := code }] := by
  have hany : st.loading_languages.any (fun p => p.1 == code) = true := by
    rcases List.mem_map.mp h with ⟨p, hp, rfl⟩
    exact List.any_eq_true.mpr ⟨p, hp, beq_self_eq_true _⟩
  refine ⟨?_, dictInsert_map_fst_of_mem _ h, rfl, rfl⟩
  show dictInsert st.loading_languages code {} = _
  rw [dictInsert, if_pos hany]

theorem c6_witness :
    (download engLoading "eng").2.2 = [{ code := "eng" }] :=
  (c6_download_overwrites engLoading "eng" (by decide)).2.2.2

/-- C8: the progress callback divides by `total_size` unguarded:
`total_size = 0` raises `ZeroDivisionError`; with `total_size = -1` (the
value a server sending no length produces) any positive block count emits
a progress below 0; an under-reported `total_size` emits one above 100. -/
theorem c8_update_progress_unguarded (code : String) (bn bs : Int) :
    update_progress code bn bs 0 = Except.error () ∧
    (0 < bn → 0 < bs →
      update_progress code bn bs (-1) =
        Except.ok (Signal.downloading code ((-(bn * bs * 100) : Int) : ℚ)) ∧
      ((-(bn * bs * 100) : Int) : ℚ) < 0) ∧
    update_progress code 2 1 1 =
      Except.ok (Signal.downloading code ((200 : Int) : ℚ)) ∧
    (100 : ℚ) < ((200 : Int) : ℚ) := by
  refine ⟨by simp [update_progress], fun hbn hbs => ⟨?_, ?_⟩, ?_, by norm_num⟩
  · rw [update_progress, if_neg (by norm_num)]
    have hq : ((bn : ℚ) * (bs : ℚ) * 100) / (((-1 : Int)) : ℚ) =
        ((-(bn * bs * 100) : Int) : ℚ) := by
      push_cast
      ring
    rw [hq, truncToInt_intCast]
  · have hpos : (0 : Int) < bn * bs * 100 :=
      mul_pos (mul_pos hbn hbs) (by norm_num)
    exact Int.cast_lt_zero.mpr (neg_lt_zero.mpr hpos)
  · rw [update_progress, if_neg (by norm_num)]
    have hq : (((2 : Int)) : ℚ) * (((1 : Int)) : ℚ) * 100 / (((1 : Int)) : ℚ) =
        ((200 : Int) : ℚ) := by norm_num
    rw [hq, truncToInt_intCast]

theorem c8_witness :
    update_progress "eng" 1 1 (-1) =
      Except.ok (Signal.downloading "eng" ((-((1 : Int) * 1 * 100) : Int) : ℚ)) ∧
    ((-((1 : Int) * 1 * 100) : Int) : ℚ) < 0 :=
  (c8_update_progress_unguarded "eng" 1 1).2.1 (by norm_num) (by norm_num)

/-- C2 (amended): with a fresh listing, `get_downloaded_codes` returns
exactly those file-name stems of the listed files that are catalog codes
(stems that are not catalog codes are skipped, not returned), sorted by
display name. -/
theorem c2_downloaded_codes_recognized (fs : List String) (st : LMState) :
    (∀ c, c ∈ (get_downloaded_codes fs st true).2 ↔
      (c ∈ fs.map splitext_stem ∧ (get_language c).isSome = true)) ∧
    List.Pairwise titleLE (get_downloaded_codes fs st true).2 := by
  have h2 : (get_downloaded_codes fs st true).2 =
      sortByTitle ((fs.map splitext_stem).filter
        (fun c => (get_language c).isSome)) := by
    cases hx : st.need_update_cache <;> simp [get_downloaded_codes, hx]
  constructor
  · intro c
    rw [h2, sortByTitle, (List.perm_insertionSort titleLE _).mem_iff,
      List.mem_filter]
  · rw [h2]
    exact List.sorted_insertionSort titleLE _

set_option maxRecDepth 10000 in
/-- C2 counterexample: `xyz.traineddata` is listed, its stem `xyz` is not
a catalog code; the claim says the returned list is the stems of all
listed files (`["xyz"]`), but `get_downloaded_codes` returns `[]`. -/
theorem c2_counterexample :
    ["xyz.traineddata"].map splitext_stem = ["xyz"] ∧
    (get_downloaded_codes ["xyz.traineddata"] initState true).2 = [] := by
  exact ⟨by decide, by decide⟩

/-- C3: `get_available_codes` returns the catalog codes each exactly once
(a duplicate-free permutation of the catalog keys), ordered by the display
name `get_language` maps each code to; the order is not the order of the
code strings themselves. -/
theorem c3_available_codes_sorted_by_title :
    get_available_codes.Perm (languages.map Prod.fst) ∧
    get_available_codes.Nodup ∧
    List.Pairwise titleLE get_available_codes ∧
    ¬ List.Pairwise (fun a b => strLE a b = true) get_available_codes := by
  have hperm : get_available_codes.Perm (languages.map Prod.fst) :=
    List.perm_insertionSort titleLE _
  have hsorted : List.Pairwise titleLE get_available_codes :=
    List.sorted_insertionSort titleLE _
  refine ⟨hperm, hperm.nodup_iff.mpr languages_codes_nodup, hsorted, ?_⟩
  intro hcode
  have hbod : "bod" ∈ get_available_codes := hperm.mem_iff.mpr (by decide)
  have hbos : "bos" ∈ get_available_codes := hperm.mem_iff.mpr (by decide)
  rcases pair_sublist_of_mem hbod hbos (by decide) with hs | hs
  · have hp : List.Pairwise titleLE ["bod", "bos"] := hsorted.sublist hs
    have hrel : titleLE "bod" "bos" :=
      List.rel_of_pairwise_cons hp (List.mem_cons_self _ _)
    exact absurd hrel (by decide)
  · have hp : List.Pairwise (fun a b => strLE a b = true) ["bos", "bod"] :=
      hcode.sublist hs
    have hrel : strLE "bos" "bod" = true :=
      List.rel_of_pairwise_cons hp (List.mem_cons_self _ _)
    exact absurd hrel (by decide)

/-- C7: for every catalog code,
`get_language_code (get_language code) = code`: the code → display-name
table is injective and `get_language_code` is a left inverse of
`get_language` on catalog codes. -/
theorem c7_language_roundtrip (code : String)
    (h : code ∈ languages.map Prod.fst) :
    (get_language code).bind get_language_code = some code := by
  have hc := List.all_eq_true.mp all_roundtripOK code h
  unfold roundtripOK at hc
  cases hg : get_language code with
  | none => rw [hg] at hc; simp at hc
  | some t =>
    rw [hg] at hc
    simpa using eq_of_beq hc

set_option maxRecDepth 10000 in
theorem c7_witness :
    (get_language "eng").bind get_language_code = some "eng" :=
  c7_language_roundtrip "eng" (by decide)
